import Mathlib

/-!
Shallow embedding of the delivery bridging layer:
staking sync queue (src/staking/keep_sync.go),
rootchain listener (src/bridge/setu/listener/rootchain.go),
validator set store (src/unnamed/part_000, package staking).

The cosmos KVStore is modelled per component: the staking queue as a map
from the rootID byte to the optionally-present marshalled record list
(`some []` models a key that is present but holds an empty list, which is
distinct from an absent key), the validator store as two maps keyed by
signer address and validator ID. Amino marshal/unmarshal round-trips, so
the marshal/unmarshal error branches of the Go code are unreachable in
the model and serialization is the identity.
-/

namespace Delivery

/-- stakingTypes.StakingRecord restricted to the fields the queue code
reads: ValidatorID, Nonce, TxHash. Addresses and hashes are modelled as
naturals. -/
structure StakingRecord where
  validatorID : Nat
  nonce : Nat
  txHash : Nat
  deriving DecidableEq, Repr

/-- The staking queue's slice of the KVStore: rootID byte to the stored
record list; `none` models `store.Has(key) = false`. -/
def QueueStore : Type := Nat → Option (List StakingRecord)

/-- Pointwise update of a queue store at one rootID key. -/
def QueueStore.set (s : QueueStore) (rootID : Nat) (v : Option (List StakingRecord)) :
    QueueStore :=
  fun r => if r = rootID then v else s r

def emptyQueueStore : QueueStore := fun _ => none

/-- AddStakingRecordToQueue: read the stored list (absent key reads as
nil), append the record, write back. No dedup check is performed. -/
def AddStakingRecordToQueue (s : QueueStore) (rootID : Nat)
    (stakingRecord : StakingRecord) : QueueStore :=
  let records := (s rootID).getD []
  s.set rootID (some (records ++ [stakingRecord]))

/-- GetNextStakingRecordFromQueue: on an absent key returns nil, nil
(modelled `some none`); on a present key returns `&records[0]`. The Go
indexing panics when the stored list is empty, modelled by the outer
`none`. -/
def GetNextStakingRecordFromQueue (s : QueueStore) (rootID : Nat) :
    Option (Option StakingRecord) :=
  match s rootID with
  | none => some none
  | some records =>
    match records with
    | [] => none
    | r :: _ => some (some r)

/-- findStakingRecordFromQueue: true when some stored record matches the
(ValidatorID, Nonce, TxHash) triple of the argument. -/
def findStakingRecordFromQueue (s : QueueStore) (rootID : Nat)
    (stakingRecord : StakingRecord) : Bool :=
  match s rootID with
  | none => false
  | some records =>
    records.any fun record =>
      record.validatorID == stakingRecord.validatorID &&
      record.nonce == stakingRecord.nonce &&
      record.txHash == stakingRecord.txHash

/-- The loop of removeStakingRecordFromQueue: at the first record whose
(ValidatorID, Nonce) matches, the Go code stores `records[index+1:]`,
which is exactly the tail after the matched element in this recursion;
`none` means no match (loop falls through, nothing is written). -/
def removeLoop (records : List StakingRecord) (validatorID nonce : Nat) :
    Option (List StakingRecord) :=
  match records with
  | [] => none
  | record :: rest =>
    if record.validatorID == validatorID && record.nonce == nonce then
      some rest
    else
      removeLoop rest validatorID nonce

/-- removeStakingRecordFromQueue: absent key returns unchanged; otherwise
run the loop, and on a match overwrite the key with the tail slice. -/
def removeStakingRecordFromQueue (s : QueueStore) (rootID : Nat)
    (validatorID nonce : Nat) : QueueStore :=
  match s rootID with
  | none => s
  | some records =>
    match removeLoop records validatorID nonce with
    | none => s
    | some results => s.set rootID (some results)

/-- Concrete records for the queue scenarios. -/
def recA : StakingRecord := ⟨1, 1, 1⟩

def recB : StakingRecord := ⟨2, 2, 2⟩

def recC : StakingRecord := ⟨3, 3, 3⟩

/-- A store holding the queue [A, B, C] under rootID 0. -/
def storeABC : QueueStore := emptyQueueStore.set 0 (some [recA, recB, recC])

/-- A store holding the queue [A] under rootID 0. -/
def storeA : QueueStore := emptyQueueStore.set 0 (some [recA])

/-- C1: removing B from the stored queue [A, B, C] leaves [C], not the
claimed [A, C]: the code stores the tail slice `records[index+1:]`,
dropping the matched record and every record before it. -/
theorem c1_remove_tail_slice_drops_earlier_records :
    removeStakingRecordFromQueue storeABC 0 2 2 0 = some [recC] ∧
    removeStakingRecordFromQueue storeABC 0 2 2 0 ≠ some [recA, recC] := by
  constructor
  · rfl
  · intro h
    simp only [removeStakingRecordFromQueue, storeABC, emptyQueueStore,
      QueueStore.set, removeLoop, recA, recB, recC] at h
    revert h
    decide

/-- C2 counterexample: enqueuing the same record twice into an empty
store leaves two stored copies, not one — AddStakingRecordToQueue has no
dedup check and appends unconditionally. -/
theorem c2_counterexample_add_twice_stores_two :
    (AddStakingRecordToQueue (AddStakingRecordToQueue emptyQueueStore 0 recA) 0 recA) 0
      = some [recA, recA] ∧
    (AddStakingRecordToQueue (AddStakingRecordToQueue emptyQueueStore 0 recA) 0 recA) 0
      ≠ some [recA] := by
  constructor
  · rfl
  · intro h
    simp only [AddStakingRecordToQueue, emptyQueueStore, QueueStore.set,
      Option.getD, recA] at h
    revert h
    decide

/-- C2 amended: AddStakingRecordToQueue always appends (no internal
dedup); the dedup primitive findStakingRecordFromQueue returns true
exactly when a record with the same (validatorID, nonce, txHash) triple
is already stored for that rootID, so callers obtain idempotence by
checking it before enqueuing. -/
theorem c2_add_appends_and_find_detects_duplicates
    (s : QueueStore) (rootID : Nat) (rec : StakingRecord) :
    (AddStakingRecordToQueue s rootID rec) rootID
      = some ((s rootID).getD [] ++ [rec]) ∧
    (findStakingRecordFromQueue s rootID rec = true ↔
      ∃ r ∈ (s rootID).getD [], r.validatorID = rec.validatorID ∧
        r.nonce = rec.nonce ∧ r.txHash = rec.txHash) := by
  constructor
  · simp [AddStakingRecordToQueue, QueueStore.set]
  · unfold findStakingRecordFromQueue
    cases h : s rootID with
    | none => simp [h]
    | some records =>
      simp [h, List.any_eq_true]
      constructor
      · rintro ⟨r, hr, hprop⟩
        obtain ⟨⟨h1, h2⟩, h3⟩ := by simpa using hprop
        exact ⟨r, hr, h1, h2, h3⟩
      · rintro ⟨r, hr, h1, h2, h3⟩
        exact ⟨r, hr, by simp [h1, h2, h3]⟩

/-- C10: GetNextStakingRecordFromQueue is not total: after
removeStakingRecordFromQueue consumes the last record of [A], the key is
still present but holds the empty list, and `&records[0]` indexes an
empty slice — a panic, modelled by the `none` result. -/
theorem c10_get_next_panics_on_emptied_queue :
    (removeStakingRecordFromQueue storeA 0 1 1) 0 = some [] ∧
    GetNextStakingRecordFromQueue (removeStakingRecordFromQueue storeA 0 1 1) 0
      = none := by
  constructor <;> rfl

/-!
Rootchain listener (src/bridge/setu/listener/rootchain.go). Block numbers
are naturals (the observed heads fit in uint64, so Nat arithmetic is
faithful). One subtlety of the source is kept: `latestNumber :=
newHeader.Number` aliases the header's big.Int, and `latestNumber.Sub`
mutates it in place, so after the confirmation subtraction
`newHeader.Number.Uint64()` equals observedHead - requiredConfirmations;
the stored-watermark skip check therefore compares the watermark against
the confirmed head, not the observed head. External effects (the
watermark write, the log query, task submission) are recorded as an
ordered trace; the log-query outcome is an input, `Except.error` standing
for a FilterLogs failure.
-/

/-- A raw log restricted to what the listener reads: its first topic,
the event signature hash. -/
structure LogEvent where
  topic0 : Nat
  deriving DecidableEq, Repr

/-- One entry of an ABI's event catalogue: human-readable name and
signature hash (abi.Event.ID). -/
structure AbiEvent where
  name : String
  id : Nat
  deriving DecidableEq, Repr

/-- The externally visible actions of a ProcessHeader cycle, in program
order. -/
inductive Effect where
  | putWatermark : Nat → Effect
  | filterLogs : Nat → Nat → Effect
  | sendTask : String → String → Effect
  deriving DecidableEq, Repr

/-- Modelled from the spec: helper.EventByID (the package helper is not
under src/) — "matches the log's first topic (event signature hash)
against each known event definition", returning the definition whose
signature hash equals the topic, or none. -/
def eventByID (abiObject : List AbiEvent) (topic : Nat) : Option AbiEvent :=
  abiObject.find? fun e => e.id == topic

/-- The switch of queryAndBroadcastEvents: the three event names with
dispatch semantics and their task names; every other name falls through
with no task. -/
def taskNameFor : String → Option String
  | "NewHeaderBlock" => some "sendCheckpointAckToHeimdall"
  | "StateSynced" => some "sendStateSyncedToHeimdall"
  | "StakeAck" => some "sendStakingAckToHeimdall"
  | _ => none

/-- The per-log loop of queryAndBroadcastEvents: every ABI in the list is
tried (the Go loop has no break), and each ABI whose catalogue matches
the topic dispatches through the switch, gated on the current-validator
check. -/
def processLog (abis : List (List AbiEvent)) (isCurrentValidator : Bool)
    (vLog : LogEvent) : List Effect :=
  abis.flatMap fun abiObject =>
    match eventByID abiObject vLog.topic0 with
    | none => []
    | some selectedEvent =>
      match taskNameFor selectedEvent.name with
      | none => []
      | some taskName =>
        if isCurrentValidator then [Effect.sendTask taskName selectedEvent.name]
        else []

/-- queryAndBroadcastEvents: issue the FilterLogs query over
[fromBlock, toBlock]; on error return with no task; otherwise process
each fetched log. -/
def queryAndBroadcastEvents (abis : List (List AbiEvent))
    (isCurrentValidator : Bool) (fromBlock toBlock : Nat)
    (filterResult : Except Unit (List LogEvent)) : List Effect :=
  Effect.filterLogs fromBlock toBlock ::
    match filterResult with
    | Except.error _ => []
    | Except.ok logs => logs.flatMap (processLog abis isCurrentValidator)

/-- Lines 141-154 of rootchain.go: collapse fromBlock onto toBlock when
it overshot, persist the watermark to toBlock, then query and broadcast. -/
def scanCycle (abis : List (List AbiEvent)) (isCurrentValidator : Bool)
    (filterResult : Except Unit (List LogEvent)) (fromBlock toBlock : Nat) :
    Option Nat × List Effect :=
  let fromBlock := if toBlock < fromBlock then toBlock else fromBlock
  (some toBlock,
    Effect.putWatermark toBlock ::
      queryAndBroadcastEvents abis isCurrentValidator fromBlock toBlock filterResult)

/-- ProcessHeader: skip when the head has insufficient depth; otherwise
compute the confirmed head, consult the stored watermark (skip when it
already covers the confirmed head — the aliased newHeader.Number — and
start from watermark+1 when that stays below the confirmed head), then
run the scan cycle. Returns the watermark cell after the call and the
effect trace. -/
def ProcessHeader (watermark : Option Nat)
    (headerNumber requiredConfirmations : Nat) (abis : List (List AbiEvent))
    (isCurrentValidator : Bool) (filterResult : Except Unit (List LogEvent)) :
    Option Nat × List Effect :=
  if headerNumber ≤ requiredConfirmations then (watermark, [])
  else
    let confirmedHead := headerNumber - requiredConfirmations
    match watermark with
    | none =>
      scanCycle abis isCurrentValidator filterResult confirmedHead confirmedHead
    | some result =>
      if confirmedHead ≤ result then (watermark, [])
      else
        scanCycle abis isCurrentValidator filterResult
          (if result + 1 < confirmedHead then result + 1 else confirmedHead)
          confirmedHead

/-- Every effect the per-log loop emits is a task submission. -/
theorem mem_processLog_sendTask {abis : List (List AbiEvent)}
    {isCurrentValidator : Bool} {vLog : LogEvent} {e : Effect}
    (h : e ∈ processLog abis isCurrentValidator vLog) :
    ∃ tn en, e = Effect.sendTask tn en := by
  simp only [processLog, List.mem_flatMap] at h
  obtain ⟨abiObject, _, hmem⟩ := h
  cases hsel : eventByID abiObject vLog.topic0 with
  | none => simp [hsel] at hmem
  | some selectedEvent =>
    cases htn : taskNameFor selectedEvent.name with
    | none => simp [hsel, htn] at hmem
    | some taskName =>
      cases isCurrentValidator with
      | false => simp [hsel, htn] at hmem
      | true =>
        simp [hsel, htn] at hmem
        exact ⟨taskName, selectedEvent.name, hmem⟩

/-- The task submissions of one cycle: none when FilterLogs errors,
otherwise the per-log dispatches in order. -/
def dispatchTasks (abis : List (List AbiEvent)) (isCurrentValidator : Bool)
    (filterResult : Except Unit (List LogEvent)) : List Effect :=
  match filterResult with
  | Except.error _ => []
  | Except.ok logs => logs.flatMap (processLog abis isCurrentValidator)

theorem filterLogs_not_mem_dispatchTasks {abis : List (List AbiEvent)}
    {isCurrentValidator : Bool} {filterResult : Except Unit (List LogEvent)}
    {f t : Nat} :
    Effect.filterLogs f t ∉ dispatchTasks abis isCurrentValidator filterResult := by
  intro hmem
  cases filterResult with
  | error e => simp [dispatchTasks] at hmem
  | ok logs =>
    simp only [dispatchTasks, List.mem_flatMap] at hmem
    obtain ⟨vLog, _, hin⟩ := hmem
    obtain ⟨tn, en, heq⟩ := mem_processLog_sendTask hin
    exact Effect.noConfusion heq

theorem scanCycle_eq {abis : List (List AbiEvent)} {isCurrentValidator : Bool}
    {filterResult : Except Unit (List LogEvent)} {fromBlock toBlock : Nat}
    (hle : fromBlock ≤ toBlock) :
    scanCycle abis isCurrentValidator filterResult fromBlock toBlock
      = (some toBlock,
          Effect.putWatermark toBlock :: Effect.filterLogs fromBlock toBlock ::
            dispatchTasks abis isCurrentValidator filterResult) := by
  have hnot : ¬ toBlock < fromBlock := by omega
  simp [scanCycle, queryAndBroadcastEvents, dispatchTasks, hnot]

theorem processHeader_skip_depth {wm : Option Nat} {h c : Nat}
    {abis : List (List AbiEvent)} {isCurrentValidator : Bool}
    {filterResult : Except Unit (List LogEvent)} (hle : h ≤ c) :
    ProcessHeader wm h c abis isCurrentValidator filterResult = (wm, []) := by
  simp [ProcessHeader, hle]

theorem processHeader_skip_watermark {w h c : Nat}
    {abis : List (List AbiEvent)} {isCurrentValidator : Bool}
    {filterResult : Except Unit (List LogEvent)} (hch : c < h) (hw : h - c ≤ w) :
    ProcessHeader (some w) h c abis isCurrentValidator filterResult
      = (some w, []) := by
  have hnle : ¬ h ≤ c := by omega
  simp [ProcessHeader, hnle, hw]

theorem processHeader_scan_none {h c : Nat} {abis : List (List AbiEvent)}
    {isCurrentValidator : Bool} {filterResult : Except Unit (List LogEvent)}
    (hch : c < h) :
    ProcessHeader none h c abis isCurrentValidator filterResult
      = (some (h - c),
          Effect.putWatermark (h - c) :: Effect.filterLogs (h - c) (h - c) ::
            dispatchTasks abis isCurrentValidator filterResult) := by
  have hnle : ¬ h ≤ c := by omega
  simp only [ProcessHeader, hnle, if_false]
  exact scanCycle_eq (Nat.le_refl _)

theorem processHeader_scan_some {w h c : Nat} {abis : List (List AbiEvent)}
    {isCurrentValidator : Bool} {filterResult : Except Unit (List LogEvent)}
    (hch : c < h) (hw : w < h - c) :
    ProcessHeader (some w) h c abis isCurrentValidator filterResult
      = (some (h - c),
          Effect.putWatermark (h - c) :: Effect.filterLogs (w + 1) (h - c) ::
            dispatchTasks abis isCurrentValidator filterResult) := by
  have hnle : ¬ h ≤ c := by omega
  have hnw : ¬ h - c ≤ w := by omega
  simp only [ProcessHeader, hnle, if_false, hnw]
  rcases Nat.lt_or_ge (w + 1) (h - c) with hlt | hge
  · simp only [hlt, if_pos, if_true]
    exact scanCycle_eq (by omega)
  · have : ¬ w + 1 < h - c := by omega
    simp only [this, if_false]
    have heq : w + 1 = h - c := by omega
    rw [scanCycle_eq (Nat.le_refl _), heq]

/-- C3: across one ProcessHeader call with a stored watermark w, the
stored watermark never decreases, and every issued log query starts
strictly above w, so no block at or below the watermark is re-scanned. -/
theorem c3_watermark_monotone_no_rescan (w h c : Nat)
    (abis : List (List AbiEvent)) (isCurrentValidator : Bool)
    (filterResult : Except Unit (List LogEvent)) :
    (∀ w₂, (ProcessHeader (some w) h c abis isCurrentValidator filterResult).1
        = some w₂ → w ≤ w₂) ∧
    (∀ f t, Effect.filterLogs f t
        ∈ (ProcessHeader (some w) h c abis isCurrentValidator filterResult).2 →
      w < f) := by
  rcases le_or_lt h c with hle | hch
  · rw [processHeader_skip_depth hle]
    refine ⟨fun w₂ hw₂ => ?_, fun f t hmem => absurd hmem (List.not_mem_nil _)⟩
    have : w = w₂ := by simpa using hw₂
    omega
  · rcases le_or_lt (h - c) w with hw | hw
    · rw [processHeader_skip_watermark hch hw]
      refine ⟨fun w₂ hw₂ => ?_, fun f t hmem => absurd hmem (List.not_mem_nil _)⟩
      have : w = w₂ := by simpa using hw₂
      omega
    · rw [processHeader_scan_some hch hw]
      refine ⟨fun w₂ hw₂ => ?_, fun f t hmem => ?_⟩
      · have : h - c = w₂ := by simpa using hw₂
        omega
      · simp only [List.mem_cons] at hmem
        rcases hmem with heq | heq | hmem
        · exact absurd heq (by simp)
        · have : f = w + 1 := by
            injection heq with h1 h2
          omega
        · exact absurd hmem filterLogs_not_mem_dispatchTasks

/-- C4: with a stored watermark at or above the observed head, the call
is a complete skip: no effect is emitted (no query, no task, no
watermark write) and the stored watermark is unchanged. -/
theorem c4_skip_when_watermark_covers_head (w h c : Nat)
    (abis : List (List AbiEvent)) (isCurrentValidator : Bool)
    (filterResult : Except Unit (List LogEvent)) (hge : h ≤ w) :
    ProcessHeader (some w) h c abis isCurrentValidator filterResult
      = (some w, []) := by
  rcases le_or_lt h c with hle | hch
  · exact processHeader_skip_depth hle
  · exact processHeader_skip_watermark hch (by omega)

/-- C5: whenever a log query is issued, its range satisfies
toBlock = observedHead - requiredConfirmations, fromBlock ≤ toBlock,
fromBlock = toBlock when no watermark was stored, and with watermark w
fromBlock = w+1 when that does not exceed the confirmed head and the
confirmed head otherwise. -/
theorem c5_scan_range_shape (wm : Option Nat) (h c : Nat)
    (abis : List (List AbiEvent)) (isCurrentValidator : Bool)
    (filterResult : Except Unit (List LogEvent)) (f t : Nat)
    (hmem : Effect.filterLogs f t
      ∈ (ProcessHeader wm h c abis isCurrentValidator filterResult).2) :
    c < h ∧ t = h - c ∧ f ≤ t ∧
    (wm = none → f = t) ∧
    (∀ w, wm = some w → f = if w + 1 ≤ h - c then w + 1 else h - c) := by
  rcases le_or_lt h c with hle | hch
  · rw [processHeader_skip_depth hle] at hmem
    exact absurd hmem (List.not_mem_nil _)
  · cases wm with
    | none =>
      rw [processHeader_scan_none hch] at hmem
      simp only [List.mem_cons] at hmem
      rcases hmem with heq | heq | hmem
      · exact absurd heq (by simp)
      · injection heq with h1 h2
        exact ⟨hch, h2, by omega, fun _ => by omega,
          fun w hw => Option.noConfusion hw⟩
      · exact absurd hmem filterLogs_not_mem_dispatchTasks
    | some w =>
      rcases le_or_lt (h - c) w with hw | hw
      · rw [processHeader_skip_watermark hch hw] at hmem
        exact absurd hmem (List.not_mem_nil _)
      · rw [processHeader_scan_some hch hw] at hmem
        simp only [List.mem_cons] at hmem
        rcases hmem with heq | heq | hmem
        · exact absurd heq (by simp)
        · injection heq with h1 h2
          refine ⟨hch, h2, by omega, fun hn => Option.noConfusion hn,
            fun w₂ hw₂ => ?_⟩
          have hww : w = w₂ := by simpa using hw₂
          have : w₂ + 1 ≤ h - c := by omega
          simp only [this, if_pos, if_true]
          omega
        · exact absurd hmem filterLogs_not_mem_dispatchTasks

/-- C7: when the FilterLogs query fails, the cycle's trace is exactly the
watermark write to toBlock followed by the failed query — the watermark
was persisted before the scan, so the stored value has already advanced
to toBlock despite the error, and no task is dispatched. -/
theorem c7_watermark_persisted_before_failed_scan (wm : Option Nat)
    (h c : Nat) (abis : List (List AbiEvent)) (isCurrentValidator : Bool)
    (f t : Nat)
    (hmem : Effect.filterLogs f t ∈ (ProcessHeader wm h c abis
      isCurrentValidator (Except.error ())).2) :
    (ProcessHeader wm h c abis isCurrentValidator (Except.error ())).1
      = some t ∧
    (ProcessHeader wm h c abis isCurrentValidator (Except.error ())).2
      = [Effect.putWatermark t, Effect.filterLogs f t] := by
  rcases le_or_lt h c with hle | hch
  · rw [processHeader_skip_depth hle] at hmem
    exact absurd hmem (List.not_mem_nil _)
  · cases wm with
    | none =>
      rw [processHeader_scan_none hch] at hmem ⊢
      simp only [List.mem_cons, dispatchTasks] at hmem
      rcases hmem with heq | heq | hmem
      · exact absurd heq (by simp)
      · injection heq with h1 h2
        subst h1; subst h2
        simp [dispatchTasks]
      · exact absurd hmem (List.not_mem_nil _)
    | some w =>
      rcases le_or_lt (h - c) w with hw | hw
      · rw [processHeader_skip_watermark hch hw] at hmem
        exact absurd hmem (List.not_mem_nil _)
      · rw [processHeader_scan_some hch hw] at hmem ⊢
        simp only [List.mem_cons, dispatchTasks] at hmem
        rcases hmem with heq | heq | hmem
        · exact absurd heq (by simp)
        · injection heq with h1 h2
          subst h1; subst h2
          simp [dispatchTasks]
        · exact absurd hmem (List.not_mem_nil _)

/-- C6: with insufficient chain depth (observed head at or below the
required confirmation count) the call is a complete skip: no query, no
task, no watermark write. -/
theorem c6_skip_when_insufficient_depth (wm : Option Nat) (h c : Nat)
    (abis : List (List AbiEvent)) (isCurrentValidator : Bool)
    (filterResult : Except Unit (List LogEvent)) (hle : h ≤ c) :
    ProcessHeader wm h c abis isCurrentValidator filterResult = (wm, []) :=
  processHeader_skip_depth hle

theorem c6_skip_when_insufficient_depth_witness :
    (3 : Nat) ≤ 5 ∧
    ProcessHeader none 3 5 [] true (Except.ok []) = (none, []) :=
  ⟨by decide, c6_skip_when_insufficient_depth none 3 5 [] true (Except.ok [])
    (by decide)⟩

theorem c3_watermark_monotone_no_rescan_witness :
    (5 : Nat) ≤ 7 ∧ (5 : Nat) < 6 := by
  have h := c3_watermark_monotone_no_rescan 5 10 3 [] true (Except.ok [])
  exact ⟨h.1 7 (by decide), h.2 6 7 (by decide)⟩

theorem c4_skip_when_watermark_covers_head_witness :
    ProcessHeader (some 10) 10 3 [] true (Except.ok []) = (some 10, []) :=
  c4_skip_when_watermark_covers_head 10 10 3 [] true (Except.ok []) (by decide)

theorem c5_scan_range_shape_witness :
    (3 : Nat) < 10 ∧ (7 : Nat) = 10 - 3 ∧ (6 : Nat) ≤ 7 := by
  have h := c5_scan_range_shape (some 5) 10 3 [] true (Except.ok []) 6 7
    (by decide)
  exact ⟨h.1, h.2.1, h.2.2.1⟩

theorem c7_watermark_persisted_before_failed_scan_witness :
    (ProcessHeader (some 5) 10 3 [] true (Except.error ())).1 = some 7 ∧
    (ProcessHeader (some 5) 10 3 [] true (Except.error ())).2
      = [Effect.putWatermark 7, Effect.filterLogs 6 7] :=
  c7_watermark_persisted_before_failed_scan (some 5) 10 3 [] true 6 7
    (by decide)

/-- Two ABIs whose catalogues give the same signature hash 7 to
differently named events, and a log carrying that hash. -/
def abiA : List AbiEvent := [⟨"NewHeaderBlock", 7⟩]

def abiB : List AbiEvent := [⟨"StateSynced", 7⟩]

def logX : LogEvent := ⟨7⟩

/-- C9 counterexample: the per-log ABI loop has no break, so a log whose
first topic matches event definitions in two ABIs of the list dispatches
two tasks, refuting the at-most-one-dispatch claim. -/
theorem c9_counterexample_double_dispatch :
    processLog [abiA, abiB] true logX
      = [Effect.sendTask "sendCheckpointAckToHeimdall" "NewHeaderBlock",
         Effect.sendTask "sendStateSyncedToHeimdall" "StateSynced"] ∧
    ¬ (processLog [abiA, abiB] true logX).length ≤ 1 := by
  constructor
  · rfl
  · decide

/-- C9 amended: each ABI of the list contributes at most one
classification and at most one dispatch per log (within one ABI the
first matching definition wins), so a log dispatches at most one task
per ABI — at most abis.length tasks in total — but a log matching
definitions in several ABIs dispatches once per matching ABI. -/
theorem c9_at_most_one_dispatch_per_abi (abis : List (List AbiEvent))
    (isCurrentValidator : Bool) (vLog : LogEvent) :
    (processLog abis isCurrentValidator vLog).length ≤ abis.length := by
  induction abis with
  | nil => simp [processLog]
  | cons abiObject rest ih =>
    simp only [processLog, List.flatMap_cons, List.length_append,
      List.length_cons] at ih ⊢
    have hhead :
        (match eventByID abiObject vLog.topic0 with
          | none => []
          | some selectedEvent =>
            match taskNameFor selectedEvent.name with
            | none => []
            | some taskName =>
              if isCurrentValidator then
                [Effect.sendTask taskName selectedEvent.name]
              else []).length ≤ 1 := by
      cases eventByID abiObject vLog.topic0 with
      | none => simp
      | some selectedEvent =>
        cases htn : taskNameFor selectedEvent.name with
        | none => simp [htn]
        | some taskName => cases isCurrentValidator <;> simp [htn]
    omega

/-!
Validator set store (src/unnamed/part_000). The store's two key spaces —
validator records under the signer-address key and the ValidatorID to
signer-address map — are modelled as two maps; addresses, pubkeys and
IDs are naturals. Marshalling is the identity, so AddValidator's marshal
error branch is unreachable. -/

/-- types.Validator restricted to the fields this keeper reads and
writes. -/
structure Validator where
  id : Nat
  signer : Nat
  pubKey : Nat
  power : Nat
  startEpoch : Nat
  endEpoch : Nat
  lastUpdated : Nat
  deriving DecidableEq, Repr

/-- The keeper's slice of the KVStore: records keyed by signer address,
plus the ValidatorID to signer-address map. -/
structure ValStore where
  validators : Nat → Option Validator
  signerMap : Nat → Option Nat

/-- SetValidatorIDToSignerAddr: write the ID-to-signer mapping. -/
def SetValidatorIDToSignerAddr (s : ValStore) (valID signerAddr : Nat) :
    ValStore :=
  { s with signerMap := fun i => if i = valID then some signerAddr else s.signerMap i }

/-- AddValidator: store the record under its signer-address key, then
refresh the ID-to-signer map entry. -/
def AddValidator (s : ValStore) (validator : Validator) : ValStore :=
  let s1 : ValStore :=
    { s with validators := fun a =>
        if a = validator.signer then some validator else s.validators a }
  SetValidatorIDToSignerAddr s1 validator.id validator.signer

/-- GetValidatorInfo: read the record under an address key; absence is
the "Validator not found" error, modelled as none. -/
def GetValidatorInfo (s : ValStore) (address : Nat) : Option Validator :=
  s.validators address

/-- GetSignerFromValidatorID: read the ID-to-signer map. -/
def GetSignerFromValidatorID (s : ValStore) (valID : Nat) : Option Nat :=
  s.signerMap valID

/-- UpdateSigner: fetch the record under prevSigner (propagating the
not-found error), store it back with power zeroed, then store it again
under the new signer with the new pubkey and the preserved power. -/
def UpdateSigner (s : ValStore) (newSigner newPubkey prevSigner : Nat) :
    Option ValStore :=
  match GetValidatorInfo s prevSigner with
  | none => none
  | some validator =>
    let validatorPower := validator.power
    let retired := { validator with power := 0 }
    let s1 := AddValidator s retired
    let updated :=
      { retired with
        signer := newSigner
        pubKey := newPubkey
        power := validatorPower }
    some (AddValidator s1 updated)

/-- C8: rotating a stored validator from prevSigner to a distinct
newSigner leaves a power-0 record under prevSigner, a record under
newSigner carrying the original power with the new pubkey, and the
ID-to-signer map resolving the validator's ID to newSigner. -/
theorem c8_update_signer_rotation (s : ValStore) (v : Validator)
    (newSigner newPubkey prevSigner : Nat)
    (hv : s.validators prevSigner = some v)
    (hkey : v.signer = prevSigner)
    (hne : newSigner ≠ prevSigner) :
    ((UpdateSigner s newSigner newPubkey prevSigner).bind
        fun s₂ => s₂.validators prevSigner).map Validator.power = some 0 ∧
    ((UpdateSigner s newSigner newPubkey prevSigner).bind
        fun s₂ => s₂.validators newSigner)
      = some { v with signer := newSigner, pubKey := newPubkey } ∧
    ((UpdateSigner s newSigner newPubkey prevSigner).bind
        fun s₂ => s₂.signerMap v.id) = some newSigner := by
  simp only [UpdateSigner, GetValidatorInfo, hv, AddValidator,
    SetValidatorIDToSignerAddr, Option.bind_some, Option.some_bind]
  refine ⟨?_, ?_, ?_⟩
  · simp [hkey, hne, Ne.symm hne]
  · simp
  · simp

theorem c8_update_signer_rotation_witness :
    ((UpdateSigner ⟨fun a => if a = 10 then some ⟨1, 10, 100, 50, 0, 0, 0⟩
          else none, fun i => if i = 1 then some 10 else none⟩ 20 200 10).bind
        fun s₂ => s₂.validators 10).map Validator.power = some 0 ∧
    ((UpdateSigner ⟨fun a => if a = 10 then some ⟨1, 10, 100, 50, 0, 0, 0⟩
          else none, fun i => if i = 1 then some 10 else none⟩ 20 200 10).bind
        fun s₂ => s₂.validators 20)
      = some ⟨1, 20, 200, 50, 0, 0, 0⟩ ∧
    ((UpdateSigner ⟨fun a => if a = 10 then some ⟨1, 10, 100, 50, 0, 0, 0⟩
          else none, fun i => if i = 1 then some 10 else none⟩ 20 200 10).bind
        fun s₂ => s₂.signerMap 1) = some 20 :=
  c8_update_signer_rotation
    ⟨fun a => if a = 10 then some ⟨1, 10, 100, 50, 0, 0, 0⟩ else none,
      fun i => if i = 1 then some 10 else none⟩
    ⟨1, 10, 100, 50, 0, 0, 0⟩ 20 200 10 rfl rfl (by decide)

end Delivery
